import Mathlib

/-!
Verification of the tilegamecli command interpreter (gamez.go).

Strings are modelled as `List Char`: Go iterates over runes (`for i, r :=
range s`) and every delimiter the scanner reacts to is a single ASCII rune,
so slicing the Go string just after a matched delimiter corresponds to
taking the tail of the rune list.  The parser, the registered game commands
and the message-loop wrapper `callParse` are translated from
src/gamez.go.  The function registry and dispatcher (package
`commander`) and the client room (package `wshandle`) are external
packages that are not part of this repository; where a claim needs them
they are modelled from the spec and marked as such in their doc comments.
-/

namespace Gamez

/-- The three syntax errors `parse` can produce (src/gamez.go lines 300,
320, 324). -/
inductive ParseError where
  | openNotFound   : ParseError
  | closeNotFound  : ParseError
  | extraChars     : ParseError
deriving DecidableEq, Repr

/-- Phase 1 of `parse` (the first `for i, r := range s` loop): accumulate
runes into the name until the first `(`; return the name and, when a `(`
was found, the rest of the input after it. -/
def scanName : List Char → List Char × Option (List Char)
  | [] => ([], none)
  | c :: cs =>
    if c = '(' then ([], some cs)
    else
      let r := scanName cs
      (c :: r.1, r.2)

/-- Phase 2 of `parse` (the loop after the `parseArgs` label): accumulate
runes into the current argument; on `,` push the current argument (even
when empty); on `)` push the current argument only when non-empty and
return the rest of the input after the `)`.  When the input ends without a
`)`, the arguments pushed so far are returned with no rest. -/
def scanArgs : List Char → List (List Char) → List Char → List (List Char) × Option (List Char)
  | _, acc, [] => (acc, none)
  | cur, acc, c :: cs =>
    if c = ')' then ((if cur = [] then acc else acc ++ [cur]), some cs)
    else if c = ',' then scanArgs [] (acc ++ [cur]) cs
    else scanArgs (cur ++ [c]) acc cs

/-- `strings.Replace(s, " ", "", -1)`: every space rune (U+0020, and only
that rune) is removed before scanning. -/
def stripSpaces (s : List Char) : List Char := s.filter (fun c => c != ' ')

/-- `parse` after the space stripping: name scan, argument scan, and the
trailing-characters check at the `finish` label. -/
def parseCore (s : List Char) : List Char × List (List Char) × Option ParseError :=
  match scanName s with
  | (name, none) => (name, [], some .openNotFound)
  | (name, some rest) =>
    match scanArgs [] [] rest with
    | (args, none) => (name, args, some .closeNotFound)
    | (args, some rest2) =>
      if rest2 = [] then (name, args, none) else (name, args, some .extraChars)

/-- `parse` from src/gamez.go lines 283-328: strip spaces, scan the name up
to `(`, scan the arguments up to `)`, fail when characters remain. -/
def parse (s : List Char) : List Char × List (List Char) × Option ParseError :=
  parseCore (stripSpaces s)

-- ______________________________________________________________________
--			    Game Commands (src/gamez.go lines 74-191)
-- ======================================================================

/-- `GridSize = 30`, the number of tiles in each direction. -/
def GridSize : Nat := 30

/-- `Grid()`: one `.` per grid cell, a newline after each row. -/
def Grid : String :=
  String.mk (List.flatten (List.replicate GridSize (List.replicate GridSize '.' ++ ['\n'])))

/-- The help listing built in `init()` by iterating over `fMap` and
printing each entry as `name(paramTypes) resultType`.  Go map iteration
order is unspecified; the entries are modelled in the order the `fMap`
literal writes them (grid, login, help, add, mult). -/
def functionHelpMessage : String :=
  "List of Implemented Functions:"
    ++ "\n\t" ++ "grid() string"
    ++ "\n\t" ++ "login(string) int"
    ++ "\n\t" ++ "help() string"
    ++ "\n\t" ++ "add(float64, float64) float64"
    ++ "\n\t" ++ "mult(float64, float64) float64"

/-- `Help()` returns the cached help listing. -/
def Help : String := functionHelpMessage

/-- `Login(name string) int { return 0 }`. -/
def Login (name : String) : Int := 0

/-- `Add(a, b float64) float64 { return a + b }`.  The float64 operands are
modelled as rationals; every value the verified claims touch is exactly
representable and exactly computed in float64. -/
def Add (a b : ℚ) : ℚ := a + b

/-- `Mult(a, b float64) float64 { return a * b }`. -/
def Mult (a b : ℚ) : ℚ := a * b

-- ______________________________________________________________________
--	   Function Registry / Dispatcher (external package `commander`)
-- ======================================================================

/-- The parameter kinds of the dispatcher (spec section 3). -/
inductive Kind where
  | int | float | text | bool
deriving DecidableEq, Repr

/-- Modelled from the spec: the dispatch error taxonomy of section 7
(`UnknownOperation`, `ArityMismatch`, `TypeMismatch` with the parameter
index and expected kind); the `commander` package that realizes it is not
part of this repository. -/
inductive DispatchError where
  | unknownOperation (name : String) : DispatchError
  | arityMismatch : DispatchError
  | typeMismatch (index : Nat) (expected : Kind) : DispatchError
deriving DecidableEq, Repr

/-- All-digit string to a number; `none` when empty or a rune is not a
digit. -/
def digitsToNat (l : List Char) : Option Nat :=
  if l ≠ [] ∧ ∀ c ∈ l, c.isDigit then
    some (l.foldl (fun n c => n * 10 + (c.toNat - 48)) 0)
  else none

/-- Modelled from the spec: the "standard decimal parse" converting an
argument string to a floating-point operand (optional leading minus,
digits, optional fraction); the conversion code lives in the external
`commander` package. -/
def parseFloat (s : String) : Option ℚ :=
  let signed : Bool × List Char :=
    match s.data with
    | '-' :: rest => (true, rest)
    | l => (false, l)
  let body : Option ℚ :=
    match signed.2.splitOn '.' with
    | [ip] => (digitsToNat ip).map (fun n => (n : ℚ))
    | [ip, fp] =>
      match digitsToNat ip, digitsToNat fp with
      | some n, some f => some ((n : ℚ) + (f : ℚ) / ((10 : ℚ) ^ fp.length))
      | _, _ => none
    | _ => none
  body.map (fun q => if signed.1 then -q else q)

/-- The character of a decimal digit. -/
def digitChar (n : Nat) : Char :=
  match n with
  | 0 => '0' | 1 => '1' | 2 => '2' | 3 => '3' | 4 => '4'
  | 5 => '5' | 6 => '6' | 7 => '7' | 8 => '8' | _ => '9'

/-- The decimal digits of `n`, most significant first; the fuel argument
bounds the recursion depth and any fuel above `n` is enough. -/
def natDigitsAux : Nat → Nat → List Char
  | 0, _ => []
  | fuel + 1, n =>
    if n < 10 then [digitChar n]
    else natDigitsAux fuel (n / 10) ++ [digitChar (n % 10)]

/-- The decimal digits of `n`, most significant first. -/
def natDigitsChars (n : Nat) : List Char := natDigitsAux (n + 1) n

/-- Canonical text of a natural number. -/
def natToString (n : Nat) : String := String.mk (natDigitsChars n)

/-- Canonical text of an integer. -/
def intToString (i : Int) : String :=
  if i < 0 then "-" ++ natToString i.natAbs else natToString i.natAbs

/-- Modelled from the spec: the canonical textual form of a result value
(integral results print with no fraction, as Go prints `5.0` as `5`). -/
def ratToString (q : ℚ) : String :=
  if q.den = 1 then intToString q.num
  else intToString q.num ++ "/" ++ natToString q.den

/-- A zero-parameter operation: the argument list must be empty. -/
def call0 (result : String) (args : List String) : Except DispatchError String :=
  match args with
  | [] => .ok result
  | _ => .error .arityMismatch

/-- A one-text-parameter, integer-result operation. -/
def callStr2Int (f : String → Int) (args : List String) : Except DispatchError String :=
  match args with
  | [a] => .ok (intToString (f a))
  | _ => .error .arityMismatch

/-- A two-float-parameter, float-result operation: both argument strings
must convert. -/
def call2Float (f : ℚ → ℚ → ℚ) (args : List String) : Except DispatchError String :=
  match args with
  | [a, b] =>
    match parseFloat a with
    | none => .error (.typeMismatch 0 .float)
    | some x =>
      match parseFloat b with
      | none => .error (.typeMismatch 1 .float)
      | some y => .ok (ratToString (f x y))
  | _ => .error .arityMismatch

/-- Modelled from the spec: `commander.Center.CallWithStrings` over the
registry `fMap` of src/gamez.go lines 146-152 (grid, login, help, add,
mult, in the order of the map literal).  The registry lookup is realized
as a case analysis over the five registered names; the handlers are the
source functions above. -/
def dispatch (name : String) (args : List String) : Except DispatchError String :=
  if name = "grid" then call0 Grid args
  else if name = "login" then callStr2Int Login args
  else if name = "help" then call0 Help args
  else if name = "add" then call2Float Add args
  else if name = "mult" then call2Float Mult args
  else .error (.unknownOperation name)

instance {ε α : Type} [DecidableEq ε] [DecidableEq α] : DecidableEq (Except ε α) := by
  intro a b
  cases a <;> cases b
  case error.error x y | ok.ok x y =>
    cases decEq x y with
    | isTrue h => exact .isTrue (by rw [h])
    | isFalse h => exact .isFalse (by intro hc; cases hc; exact h rfl)
  all_goals exact .isFalse (by intro hc; cases hc)

-- ______________________________________________________________________
--	   Command Processor (src/gamez.go lines 254-280)
-- ======================================================================

/-- The Go error messages hold the delimiter inside ASCII single quotes. -/
def quoteChar : Char := Char.ofNat 39

/-- The message text of each syntax error, as `parse` formats it. -/
def parseErrText : ParseError → String
  | .openNotFound =>
      "syntax error: " ++ String.mk [quoteChar, '(', quoteChar] ++ " not found."
  | .closeNotFound =>
      "syntax error: " ++ String.mk [quoteChar, ')', quoteChar] ++ " not found."
  | .extraChars =>
      "syntax error: extra characters found after "
        ++ String.mk [quoteChar, ')', quoteChar] ++ "."

/-- Modelled from the spec: the message text of each dispatch error (the
`commander` package renders them; only the fact that they are rendered
after the "Caller: " marker matters to the claims). -/
def dispatchErrText : DispatchError → String
  | .unknownOperation name => "unknown operation: " ++ name
  | .arityMismatch => "arity mismatch: wrong number of arguments."
  | .typeMismatch index _ => "type mismatch at parameter " ++ natToString index ++ "."

/-- Steps 2-4 of `callParse`: run the parser and, on success, the
dispatcher; parse failures are reported behind `Parser: `, dispatch
failures behind `Caller: `. -/
def parseThenDispatch (s : String) : String × Bool :=
  match (parse s.data).2.2 with
  | some e => ("Parser: " ++ parseErrText e, false)
  | none =>
    match dispatch (String.mk (parse s.data).1) ((parse s.data).2.1.map String.mk) with
    | .error e => ("Caller: " ++ dispatchErrText e, false)
    | .ok result => (result, true)

/-- `callParse` from src/gamez.go lines 267-280: the literal payload
`help` short-circuits to the cached listing; everything else goes through
the parser and then the dispatcher. -/
def callParse (s : String) : String × Bool :=
  if s = "help" then (Help, true) else parseThenDispatch s

-- ______________________________________________________________________
--	   Session Room and message loop (src/gamez.go lines 254-265)
-- ======================================================================

/-- One inbound frame of the client room: the sender id and the payload
(`msg.Id`, `msg.Data`). -/
structure Frame where
  id : Nat
  data : String
deriving DecidableEq, Repr

/-- Modelled from the spec: `room.Client(id)` of the external `wshandle`
package, the lookup of a live session in the room client set immediately
before a write. -/
def roomClient (clients : List Nat) (id : Nat) : Bool := clients.contains id

/-- The body of `messageWatcher` for one received frame: compute the
result with `callParse` and write it to the sender only when the room
still holds the session; the returned list is the writes performed
(destination id, line written). -/
def processFrame (clients : List Nat) (f : Frame) : List (Nat × String) :=
  let s := (callParse f.data).1
  if roomClient clients f.id then [(f.id, s)] else []

-- ______________________________________________________________________
--	   Statement vocabulary for the claims
-- ======================================================================

/-- The argument-list body of a command text: the argument texts joined by
commas. -/
def argsBody : List (List Char) → List Char
  | [] => []
  | [a] => a
  | a :: rest => a ++ ',' :: argsBody rest

/-- The command text `name(a1,...,an)`. -/
def render (name : List Char) (args : List (List Char)) : List Char :=
  name ++ '(' :: (argsBody args ++ [')'])

/-- Drops the last argument when it is the empty string (what the scanner
does with the segment before the closing parenthesis). -/
def dropTrailingEmpty : List (List Char) → List (List Char)
  | [] => []
  | [a] => if a = [] then [] else [a]
  | a :: rest => a :: dropTrailingEmpty rest

/-- An argument text that keeps the command text well formed: it holds no
comma, no parenthesis and no space. -/
def goodArg (a : List Char) : Prop := ',' ∉ a ∧ '(' ∉ a ∧ ')' ∉ a ∧ ' ' ∉ a

instance (a : List Char) : Decidable (goodArg a) := by unfold goodArg; infer_instance

/-- A whitespace rune in the ordinary sense: space, tab, line feed or
carriage return. -/
def isWS (c : Char) : Bool := c == ' ' || c == '\t' || c == '\n' || c == '\r'

/-- The marker `callParse` puts before a parse failure. -/
def parserMark : String := "Parser: "

/-- The marker `callParse` puts before a dispatch failure. -/
def callerMark : String := "Caller: "

/-- `p` is an initial segment of the text `s`. -/
def hasMark (p s : String) : Prop := p.data <+: s.data

/-- Claim C1 as stated, first half: on every well-formed command text the
parser returns the name and the argument list exactly. -/
def claimC1exact : Prop :=
  ∀ (name : List Char) (args : List (List Char)),
    '(' ∉ name → (∀ a ∈ args, ',' ∉ a ∧ '(' ∉ a ∧ ')' ∉ a) →
    parse (render name args) = (name, args, none)

/-- Claim C1 as stated, second half: two inputs that agree once all
whitespace is removed parse to the same result. -/
def claimC1ws : Prop :=
  ∀ s t : List Char,
    s.filter (fun c => !(isWS c)) = t.filter (fun c => !(isWS c)) → parse s = parse t

-- ______________________________________________________________________
--	   Scanner lemmas
-- ======================================================================

theorem scanName_no_paren (s : List Char) (h : '(' ∉ s) : scanName s = (s, none) := by
  induction s with
  | nil => rfl
  | cons c cs ih =>
    have hc : ¬ (c = '(') := fun e => h (e ▸ List.mem_cons_self c cs)
    simp only [scanName, if_neg hc]
    rw [ih (fun hm => h (List.mem_cons_of_mem _ hm))]

theorem scanName_append (name rest : List Char) (h : '(' ∉ name) :
    scanName (name ++ '(' :: rest) = (name, some rest) := by
  induction name with
  | nil => simp [scanName]
  | cons c cs ih =>
    have hc : ¬ (c = '(') := fun e => h (e ▸ List.mem_cons_self c cs)
    simp only [List.cons_append, scanName, if_neg hc, List.append_eq]
    rw [ih (fun hm => h (List.mem_cons_of_mem _ hm))]

theorem scanArgs_no_close (s : List Char) (h : ')' ∉ s) :
    ∀ cur acc, (scanArgs cur acc s).2 = none := by
  induction s with
  | nil => intro cur acc; rfl
  | cons c cs ih =>
    intro cur acc
    have hc : ¬ (c = ')') := fun e => h (e ▸ List.mem_cons_self c cs)
    have htail : ')' ∉ cs := fun hm => h (List.mem_cons_of_mem _ hm)
    by_cases hcomma : c = ','
    · simp only [scanArgs, if_neg hc, if_pos hcomma]
      exact ih htail _ _
    · simp only [scanArgs, if_neg hc, if_neg hcomma]
      exact ih htail _ _

theorem scanArgs_through (b : List Char) (h : ')' ∉ b) :
    ∀ cur acc rest, (scanArgs cur acc (b ++ ')' :: rest)).2 = some rest := by
  induction b with
  | nil => intro cur acc rest; simp [scanArgs]
  | cons c cs ih =>
    intro cur acc rest
    have hc : ¬ (c = ')') := fun e => h (e ▸ List.mem_cons_self c cs)
    have htail : ')' ∉ cs := fun hm => h (List.mem_cons_of_mem _ hm)
    by_cases hcomma : c = ','
    · simp only [List.cons_append, scanArgs, if_neg hc, if_pos hcomma]
      exact ih htail _ _ _
    · simp only [List.cons_append, scanArgs, if_neg hc, if_neg hcomma]
      exact ih htail _ _ _

theorem scanArgs_arg (a : List Char) (h : ')' ∉ a ∧ ',' ∉ a) :
    ∀ cur acc s, scanArgs cur acc (a ++ s) = scanArgs (cur ++ a) acc s := by
  induction a with
  | nil => intro cur acc s; simp
  | cons c cs ih =>
    intro cur acc s
    have hc : ¬ (c = ')') := fun e => h.1 (e ▸ List.mem_cons_self c cs)
    have hcomma : ¬ (c = ',') := fun e => h.2 (e ▸ List.mem_cons_self c cs)
    have htail : ')' ∉ cs ∧ ',' ∉ cs :=
      ⟨fun hm => h.1 (List.mem_cons_of_mem _ hm), fun hm => h.2 (List.mem_cons_of_mem _ hm)⟩
    simp only [List.cons_append, scanArgs, if_neg hc, if_neg hcomma, List.append_eq]
    rw [ih htail (cur ++ [c]) acc s]
    simp

theorem scanArgs_render (args : List (List Char)) (h : ∀ x ∈ args, ')' ∉ x ∧ ',' ∉ x) :
    ∀ acc rest, scanArgs [] acc (argsBody args ++ ')' :: rest)
      = (acc ++ dropTrailingEmpty args, some rest) := by
  induction args with
  | nil => intro acc rest; simp [argsBody, dropTrailingEmpty, scanArgs]
  | cons a t ih =>
    intro acc rest
    cases t with
    | nil =>
      have ha := h a (List.mem_cons_self a [])
      rw [show argsBody [a] = a from rfl]
      rw [scanArgs_arg a ha [] acc (')' :: rest)]
      simp only [List.nil_append]
      by_cases he : a = []
      · simp [scanArgs, he, dropTrailingEmpty]
      · simp [scanArgs, he, dropTrailingEmpty]
    | cons b t2 =>
      have ha := h a (List.mem_cons_self a (b :: t2))
      have hrest : ∀ x ∈ b :: t2, ')' ∉ x ∧ ',' ∉ x :=
        fun x hx => h x (List.mem_cons_of_mem _ hx)
      rw [show argsBody (a :: b :: t2) = a ++ ',' :: argsBody (b :: t2) from rfl]
      rw [List.append_assoc]
      simp only [List.cons_append]
      rw [scanArgs_arg a ha [] acc (',' :: (argsBody (b :: t2) ++ ')' :: rest))]
      simp only [List.nil_append]
      rw [show scanArgs a acc (',' :: (argsBody (b :: t2) ++ ')' :: rest))
            = scanArgs [] (acc ++ [a]) (argsBody (b :: t2) ++ ')' :: rest) from by
        simp [scanArgs]]
      rw [ih hrest (acc ++ [a]) rest]
      simp [dropTrailingEmpty]

theorem argsBody_not_mem (c : Char) (args : List (List Char))
    (h : ∀ a ∈ args, c ∉ a) (hc : ¬ (c = ',')) : c ∉ argsBody args := by
  induction args with
  | nil => simp [argsBody]
  | cons a t ih =>
    cases t with
    | nil =>
      rw [show argsBody [a] = a from rfl]
      exact h a (List.mem_cons_self a [])
    | cons b t2 =>
      rw [show argsBody (a :: b :: t2) = a ++ ',' :: argsBody (b :: t2) from rfl]
      intro hm
      rcases List.mem_append.mp hm with hm | hm
      · exact h a (List.mem_cons_self a (b :: t2)) hm
      · rcases List.mem_cons.mp hm with hm | hm
        · exact hc hm
        · exact ih (fun x hx => h x (List.mem_cons_of_mem _ hx)) hm

theorem stripSpaces_eq_self (s : List Char) (h : ' ' ∉ s) : stripSpaces s = s := by
  unfold stripSpaces
  apply List.filter_eq_self.mpr
  intro c hc
  simp only [bne_iff_ne, ne_eq, decide_not]
  intro e
  exact h (e ▸ hc)

theorem dropTrailingEmpty_of_getLast (args : List (List Char))
    (h : ¬ (args.getLast? = some [])) : dropTrailingEmpty args = args := by
  induction args with
  | nil => rfl
  | cons a t ih =>
    cases t with
    | nil =>
      have ha : ¬ (a = []) := fun e => h (by simp [e])
      simp [dropTrailingEmpty, ha]
    | cons b t2 =>
      rw [show dropTrailingEmpty (a :: b :: t2) = a :: dropTrailingEmpty (b :: t2) from rfl]
      rw [ih (by rwa [List.getLast?_cons_cons] at h)]

theorem dropTrailingEmpty_append_empty (args : List (List Char)) :
    dropTrailingEmpty (args ++ [[]]) = args := by
  induction args with
  | nil => rfl
  | cons a t ih =>
    rcases ht : t ++ [([] : List Char)] with _ | ⟨x, l⟩
    · exact absurd ht (by simp)
    · rw [List.cons_append, ht]
      rw [show dropTrailingEmpty (a :: x :: l) = a :: dropTrailingEmpty (x :: l) from rfl]
      rw [← ht, ih]

/-- The master computation: on a rendered command text whose name holds no
`(` and no space and whose argument texts hold no comma, parenthesis or
space, the parser returns the name, the argument list with an empty final
segment dropped, and no error. -/
theorem parse_render (name : List Char) (args : List (List Char))
    (hn : '(' ∉ name) (hns : ' ' ∉ name) (ha : ∀ a ∈ args, goodArg a) :
    parse (render name args) = (name, dropTrailingEmpty args, none) := by
  have hnospace : ' ' ∉ render name args := by
    unfold render
    intro hm
    rcases List.mem_append.mp hm with hm | hm
    · exact hns hm
    · rcases List.mem_cons.mp hm with hm | hm
      · exact absurd hm (by decide)
      · rcases List.mem_append.mp hm with hm | hm
        · exact argsBody_not_mem ' ' args (fun a haa => (ha a haa).2.2.2) (by decide) hm
        · exact absurd hm (by decide)
  have h1 : scanName (name ++ '(' :: (argsBody args ++ [')']))
      = (name, some (argsBody args ++ [')'])) := scanName_append name _ hn
  have h2 : scanArgs [] [] (argsBody args ++ [')'])
      = (dropTrailingEmpty args, some []) := by
    have := scanArgs_render args
      (fun x hx => ⟨(ha x hx).2.2.1, (ha x hx).1⟩) [] []
    simpa using this
  unfold parse
  rw [stripSpaces_eq_self _ hnospace]
  unfold render
  simp [parseCore, h1, h2]

-- ______________________________________________________________________
--	   Claim theorems
-- ======================================================================

/-- C1, counterexample: the claim as stated is false on both counts.  The
exactness half fails on `foo(1,)`, a command text of the form
`name(a1,a2)` with `a2` the empty string, which parses to the argument
list `["1"]` rather than `["1",""]`.  The whitespace half fails on a tab:
`foo(1)` and `foo(<tab>1)` agree once whitespace is removed, yet the
second parses to the argument `"\t1"`, because the scanner strips only
the space rune. -/
theorem C1_counterexample : ¬ claimC1exact ∧ ¬ claimC1ws := by
  constructor
  · intro h
    have := h "foo".data [['1'], []] (by decide) (by decide)
    exact absurd this (by decide)
  · intro h
    have := h "foo(1)".data "foo(\t1)".data (by decide)
    exact absurd this (by decide)

/-- C1 as amended: for every command text `name(a1,...,an)` whose name
holds no `(` and no space, whose argument texts hold no comma,
parenthesis or space, and whose last argument (when any) is non-empty,
`parse` returns exactly the pair; and adding or removing space runes
(U+0020, the only rune `parse` strips) anywhere never changes the
result. -/
theorem C1_amended_exact_and_space_insensitive :
    (∀ (name : List Char) (args : List (List Char)),
        '(' ∉ name → ' ' ∉ name → (∀ a ∈ args, goodArg a) →
        ¬ (args.getLast? = some []) →
        parse (render name args) = (name, args, none))
    ∧ (∀ s t : List Char, stripSpaces s = stripSpaces t → parse s = parse t) := by
  constructor
  · intro name args hn hns ha hl
    rw [parse_render name args hn hns ha, dropTrailingEmpty_of_getLast args hl]
  · intro s t h
    unfold parse
    rw [h]

/-- C1, witness: the amended theorem applied at `foo(1,2)` and at a pair
of inputs differing only in spaces. -/
theorem C1_amended_witness :
    parse (render "foo".data [['1'], ['2']]) = ("foo".data, [['1'], ['2']], none)
    ∧ parse " add ( 1 , 2 ) ".data = parse "add(1,2)".data := by
  constructor
  · exact C1_amended_exact_and_space_insensitive.1 "foo".data [['1'], ['2']]
      (by decide) (by decide) (by decide) (by decide)
  · exact C1_amended_exact_and_space_insensitive.2 " add ( 1 , 2 ) ".data
      "add(1,2)".data (by decide)

/-- C2: `foo(1,,3)` keeps the empty middle segment while `foo(1,2,)`
drops the empty trailing segment, and the asymmetry holds for every input
of the two shapes: a rendered argument list ending in an empty segment
loses exactly that segment, and an empty segment between two commas is
preserved whenever the final argument is non-empty. -/
theorem C2_empty_segment_asymmetry :
    parse "foo(1,,3)".data = ("foo".data, [['1'], [], ['3']], none)
    ∧ parse "foo(1,2,)".data = ("foo".data, [['1'], ['2']], none)
    ∧ (∀ (name : List Char) (args : List (List Char)),
        '(' ∉ name → ' ' ∉ name → (∀ a ∈ args, goodArg a) →
        parse (render name (args ++ [[]])) = (name, args, none))
    ∧ (∀ (name : List Char) (pre suf : List (List Char)) (a : List Char),
        '(' ∉ name → ' ' ∉ name → (∀ x ∈ pre, goodArg x) → (∀ x ∈ suf, goodArg x) →
        goodArg a → ¬ (a = []) →
        parse (render name (pre ++ [] :: (suf ++ [a])))
          = (name, pre ++ [] :: (suf ++ [a]), none)) := by
  refine ⟨by decide, by decide, ?_, ?_⟩
  · intro name args hn hns ha
    have hgood : ∀ x ∈ args ++ [([] : List Char)], goodArg x := by
      intro x hx
      rcases List.mem_append.mp hx with hm | hm
      · exact ha x hm
      · simp at hm
        subst hm
        exact (by decide : goodArg [])
    rw [parse_render name (args ++ [[]]) hn hns hgood, dropTrailingEmpty_append_empty]
  · intro name pre suf a hn hns hpre hsuf ha hne
    have hgood : ∀ x ∈ pre ++ [] :: (suf ++ [a]), goodArg x := by
      intro x hx
      rcases List.mem_append.mp hx with hm | hm
      · exact hpre x hm
      · rcases List.mem_cons.mp hm with hm | hm
        · subst hm
          exact (by decide : goodArg [])
        · rcases List.mem_append.mp hm with hm | hm
          · exact hsuf x hm
          · simp at hm
            subst hm
            exact ha
    have hlast : ¬ ((pre ++ [] :: (suf ++ [a])).getLast? = some []) := by
      rw [show pre ++ [] :: (suf ++ [a]) = (pre ++ [] :: suf) ++ [a] by simp]
      rw [List.getLast?_concat]
      intro he
      exact hne (Option.some.inj he)
    rw [parse_render name _ hn hns hgood, dropTrailingEmpty_of_getLast _ hlast]

/-- C2, witness: the two general halves applied at `f(1,)` and at
`f(1,,3)`. -/
theorem C2_witness :
    parse (render "f".data ([['1']] ++ [[]])) = ("f".data, [['1']], none)
    ∧ parse (render "f".data ([['1']] ++ [] :: ([] ++ [['3']])))
        = ("f".data, [['1']] ++ [] :: ([] ++ [['3']]), none) := by
  constructor
  · exact C2_empty_segment_asymmetry.2.2.1 "f".data [['1']] (by decide) (by decide) (by decide)
  · exact C2_empty_segment_asymmetry.2.2.2 "f".data [['1']] [] ['3']
      (by decide) (by decide) (by decide) (by decide) (by decide) (by decide)

/-- C3: the three failure modes of `parse`, each with its trigger: no `(`
anywhere gives the open-not-found error; a first `(` never followed by a
`)` gives the close-not-found error; a non-empty remainder after the `)`
matching the first `(` gives the extra-characters error; and every parse
result carries either no error or one of exactly these three. -/
theorem C3_failure_modes :
    (∀ s : List Char, '(' ∉ s → (parse s).2.2 = some ParseError.openNotFound)
    ∧ (∀ s a b : List Char, stripSpaces s = a ++ '(' :: b → '(' ∉ a → ')' ∉ b →
        (parse s).2.2 = some ParseError.closeNotFound)
    ∧ (∀ s a b c : List Char, stripSpaces s = a ++ '(' :: (b ++ ')' :: c) → '(' ∉ a →
        ')' ∉ b → ¬ (c = []) → (parse s).2.2 = some ParseError.extraChars)
    ∧ (∀ s : List Char, (parse s).2.2 = none
        ∨ (parse s).2.2 = some ParseError.openNotFound
        ∨ (parse s).2.2 = some ParseError.closeNotFound
        ∨ (parse s).2.2 = some ParseError.extraChars) := by
  refine ⟨?_, ?_, ?_, ?_⟩
  · intro s h
    have hs : '(' ∉ stripSpaces s := fun hm => h (List.mem_of_mem_filter hm)
    simp [parse, parseCore, scanName_no_paren _ hs]
  · intro s a b hsplit ha hb
    rcases hsa : scanArgs [] [] b with ⟨args2, o⟩
    have ho : o = none := by
      have := scanArgs_no_close b hb [] []
      rw [hsa] at this
      exact this
    subst ho
    simp [parse, parseCore, hsplit, scanName_append a b ha, hsa]
  · intro s a b c hsplit ha hb hc
    rcases hsa : scanArgs [] [] (b ++ ')' :: c) with ⟨args2, o⟩
    have ho : o = some c := by
      have := scanArgs_through b hb [] [] c
      rw [hsa] at this
      exact this
    subst ho
    simp [parse, parseCore, hsplit, scanName_append a _ ha, hsa, hc]
  · intro s
    rcases (parse s).2.2 with _ | e
    · exact Or.inl rfl
    · cases e
      · exact Or.inr (Or.inl rfl)
      · exact Or.inr (Or.inr (Or.inl rfl))
      · exact Or.inr (Or.inr (Or.inr rfl))

/-- C3, witness: the three triggers at the inputs the claim names. -/
theorem C3_witness :
    (parse "foo1,2)".data).2.2 = some ParseError.openNotFound
    ∧ (parse "foo(1,2".data).2.2 = some ParseError.closeNotFound
    ∧ (parse "foo(1,2)x".data).2.2 = some ParseError.extraChars := by
  refine ⟨?_, ?_, ?_⟩
  · exact C3_failure_modes.1 "foo1,2)".data (by decide)
  · exact C3_failure_modes.2.1 "foo(1,2".data "foo".data "1,2".data
      (by decide) (by decide) (by decide)
  · exact C3_failure_modes.2.2.1 "foo(1,2)x".data "foo".data "1,2".data "x".data
      (by decide) (by decide) (by decide) (by decide)

/-- C9: the operation name may be empty: every input made of `(`, a
well-formed argument list and `)` parses with no error and the empty
name. -/
theorem C9_empty_name :
    ∀ args : List (List Char), (∀ a ∈ args, goodArg a) →
      (parse ('(' :: (argsBody args ++ [')']))).1 = []
      ∧ (parse ('(' :: (argsBody args ++ [')']))).2.2 = none := by
  intro args ha
  have h := parse_render [] args (by decide) (by decide) ha
  rw [show render [] args = '(' :: (argsBody args ++ [')']) from rfl] at h
  exact ⟨by rw [h], by rw [h]⟩

/-- C9, witness: `(x)` parses to the empty name and the argument list
`["x"]`. -/
theorem C9_witness :
    ((parse "(x)".data).1 = [] ∧ (parse "(x)".data).2.2 = none)
    ∧ parse "(x)".data = ([], [['x']], none) := by
  constructor
  · exact C9_empty_name [['x']] (by decide)
  · decide

-- ______________________________________________________________________
--	   Rendered-result lemmas (for the error-marker claim)
-- ======================================================================

theorem digitChar_range (n : Nat) : 48 ≤ (digitChar n).toNat ∧ (digitChar n).toNat ≤ 57 := by
  unfold digitChar
  split <;> decide

theorem natDigitsAux_digits (fuel : Nat) :
    ∀ n c, c ∈ natDigitsAux fuel n → 48 ≤ c.toNat ∧ c.toNat ≤ 57 := by
  induction fuel with
  | zero =>
    intro n c hc
    simp [natDigitsAux] at hc
  | succ f ih =>
    intro n c hc
    by_cases h : n < 10
    · simp [natDigitsAux, h] at hc
      subst hc
      exact digitChar_range n
    · simp only [natDigitsAux, if_neg h, List.mem_append, List.mem_singleton] at hc
      rcases hc with hc | hc
      · exact ih _ c hc
      · subst hc
        exact digitChar_range _

theorem natDigitsAux_ne_nil (f n : Nat) : ¬ (natDigitsAux (f + 1) n = []) := by
  by_cases h : n < 10 <;> simp [natDigitsAux, h]

/-- The first rune of a rendered natural number is a decimal digit. -/
theorem natToString_head (n : Nat) :
    ∃ c, (natToString n).data.head? = some c ∧ 48 ≤ c.toNat ∧ c.toNat ≤ 57 := by
  unfold natToString natDigitsChars
  rcases h : natDigitsAux (n + 1) n with _ | ⟨c, t⟩
  · exact absurd h (natDigitsAux_ne_nil n n)
  · exact ⟨c, rfl, natDigitsAux_digits (n + 1) n c (h ▸ List.mem_cons_self c t)⟩

/-- The first rune of a rendered integer is a digit or the minus sign. -/
theorem intToString_head (i : Int) :
    ∃ c, (intToString i).data.head? = some c
      ∧ (c = '-' ∨ (48 ≤ c.toNat ∧ c.toNat ≤ 57)) := by
  unfold intToString
  by_cases h : i < 0
  · rw [if_pos h]
    exact ⟨'-', by simp [String.data_append], Or.inl rfl⟩
  · rw [if_neg h]
    obtain ⟨c, hc, hr⟩ := natToString_head i.natAbs
    exact ⟨c, hc, Or.inr hr⟩

theorem intToString_ne_nil (i : Int) : ¬ ((intToString i).data = []) := by
  intro he
  obtain ⟨c, hc, _⟩ := intToString_head i
  rw [he] at hc
  cases hc

/-- The first rune of a rendered float result is a digit or the minus
sign. -/
theorem ratToString_head (q : ℚ) :
    ∃ c, (ratToString q).data.head? = some c
      ∧ (c = '-' ∨ (48 ≤ c.toNat ∧ c.toNat ≤ 57)) := by
  unfold ratToString
  by_cases h : q.den = 1
  · rw [if_pos h]
    exact intToString_head q.num
  · rw [if_neg h]
    obtain ⟨c, hc, hr⟩ := intToString_head q.num
    refine ⟨c, ?_, hr⟩
    rcases hd : (intToString q.num).data with _ | ⟨x, t⟩
    · exact absurd hd (intToString_ne_nil q.num)
    · rw [hd] at hc
      simp only [String.data_append, hd, List.cons_append, List.head?_cons] at hc ⊢
      exact hc

/-- A list starting with `p` is only extended by texts whose first rune
is `p`. -/
theorem not_prefix_of_head (p : Char) (ps l : List Char)
    (h : ¬ (l.head? = some p)) : ¬ ((p :: ps) <+: l) := by
  intro hpre
  rcases hpre with ⟨t, ht⟩
  rw [← ht] at h
  simp at h

/-- Every successful dispatch result begins with a rune that is neither
`P` nor `C`: it is the grid drawing, the help listing, a rendered
integer or a rendered float. -/
theorem dispatch_ok_head (name : String) (args : List String) (r : String)
    (h : dispatch name args = .ok r) :
    ∃ c, r.data.head? = some c ∧ ¬ (c = 'P') ∧ ¬ (c = 'C') := by
  have hdrop : ∀ c : Char, (c = '-' ∨ (48 ≤ c.toNat ∧ c.toNat ≤ 57)) →
      ¬ (c = 'P') ∧ ¬ (c = 'C') := by
    intro c hc
    rcases hc with hc | hc
    · subst hc
      exact ⟨by decide, by decide⟩
    · constructor <;> (intro he; subst he; revert hc; decide)
  have hint : ∀ i : Int, ∃ c, (intToString i).data.head? = some c
      ∧ ¬ (c = 'P') ∧ ¬ (c = 'C') := by
    intro i
    obtain ⟨c, hc, hr⟩ := intToString_head i
    exact ⟨c, hc, hdrop c hr⟩
  have hrat : ∀ q : ℚ, ∃ c, (ratToString q).data.head? = some c
      ∧ ¬ (c = 'P') ∧ ¬ (c = 'C') := by
    intro q
    obtain ⟨c, hc, hr⟩ := ratToString_head q
    exact ⟨c, hc, hdrop c hr⟩
  have h2f : ∀ (f : ℚ → ℚ → ℚ) (as : List String), call2Float f as = .ok r →
      ∃ c, r.data.head? = some c ∧ ¬ (c = 'P') ∧ ¬ (c = 'C') := by
    intro f as hf
    rcases as with _ | ⟨a, as2⟩
    · exact Except.noConfusion hf
    rcases as2 with _ | ⟨b, as3⟩
    · exact Except.noConfusion hf
    rcases as3 with _ | _
    swap
    · exact Except.noConfusion hf
    simp only [call2Float] at hf
    rcases hpa : parseFloat a with _ | x
    · rw [hpa] at hf
      exact Except.noConfusion hf
    rw [hpa] at hf
    rcases hpb : parseFloat b with _ | y
    · rw [hpb] at hf
      exact Except.noConfusion hf
    rw [hpb] at hf
    injection hf with hr
    subst hr
    exact hrat (f x y)
  unfold dispatch at h
  by_cases hg : name = "grid"
  · rw [if_pos hg] at h
    rcases args with _ | _
    · injection h with hr
      subst hr
      exact ⟨'.', rfl, by decide, by decide⟩
    · exact Except.noConfusion h
  rw [if_neg hg] at h
  by_cases hl : name = "login"
  · rw [if_pos hl] at h
    rcases args with _ | ⟨a, _ | _⟩
    · exact Except.noConfusion h
    · injection h with hr
      subst hr
      exact hint (Login a)
    · exact Except.noConfusion h
  rw [if_neg hl] at h
  by_cases hh : name = "help"
  · rw [if_pos hh] at h
    rcases args with _ | _
    · injection h with hr
      subst hr
      exact ⟨'L', rfl, by decide, by decide⟩
    · exact Except.noConfusion h
  rw [if_neg hh] at h
  by_cases hadd : name = "add"
  · rw [if_pos hadd] at h
    exact h2f Add args h
  rw [if_neg hadd] at h
  by_cases hm : name = "mult"
  · rw [if_pos hm] at h
    exact h2f Mult args h
  rw [if_neg hm] at h
  exact Except.noConfusion h

-- ______________________________________________________________________
--	   More claim theorems
-- ======================================================================

/-- C10: the registered `login` operation returns 0 whatever its
argument; in particular its result never depends on the argument. -/
theorem C10_login_constant :
    (∀ s : String, Login s = 0) ∧ (∀ s t : String, Login s = Login t) :=
  ⟨fun _ => rfl, fun _ _ => rfl⟩

/-- C4: dispatching `add` on the argument strings `2` and `3` yields the
text of 5, and the registered handler is the pure sum of its two
operands, so the same call gives the same result every time (dispatch is
a pure function of its arguments in this model). -/
theorem C4_add_dispatch :
    dispatch "add" ["2", "3"] = .ok "5" ∧ (∀ a b : ℚ, Add a b = a + b) := by
  constructor
  · have h1 : dispatch "add" ["2", "3"]
        = .ok (ratToString (Add ((2 : Nat) : ℚ) ((3 : Nat) : ℚ))) := rfl
    have h2 : Add ((2 : Nat) : ℚ) ((3 : Nat) : ℚ) = 5 := by
      unfold Add
      norm_num
    have h3 : ratToString 5 = "5" := by
      unfold ratToString
      rw [if_pos (by norm_num)]
      rw [show ((5 : ℚ).num) = (5 : Int) by norm_num]
      decide
    rw [h1, h2, h3]
  · exact fun _ _ => rfl

/-- C5: the literal payload `help` short-circuits to the cached help
listing, which is not what the parser path would produce there (on
`help` the parser reports a missing parenthesis), and every payload
other than the literal goes through the parser first. -/
theorem C5_help_literal :
    callParse "help" = (Help, true)
    ∧ (parse "help".data).2.2 = some ParseError.openNotFound
    ∧ ¬ (parseThenDispatch "help" = (Help, true))
    ∧ (∀ s : String, ¬ (s = "help") → callParse s = parseThenDispatch s) := by
  refine ⟨rfl, by decide, ?_, ?_⟩
  · intro h
    have h2 : (parseThenDispatch "help").2 = false := rfl
    rw [h] at h2
    cases h2
  · intro s hs
    unfold callParse
    rw [if_neg hs]

/-- C5, witness: a payload other than the literal goes through the
parser. -/
theorem C5_witness : callParse "grid()" = parseThenDispatch "grid()" :=
  C5_help_literal.2.2.2 "grid()" (by decide)

/-- C7: when the frame's session is gone from the room by processing
time, the message loop performs no write at all (and returns normally);
every write it does perform goes to the frame's sender, which the lookup
just found live. -/
theorem C7_disconnected_client_safety :
    (∀ (clients : List Nat) (f : Frame), ¬ (f.id ∈ clients) →
        processFrame clients f = [])
    ∧ (∀ (clients : List Nat) (f : Frame) (w : Nat × String),
        w ∈ processFrame clients f →
        f.id ∈ clients ∧ w = (f.id, (callParse f.data).1)) := by
  constructor
  · intro clients f h
    simp [processFrame, roomClient, h]
  · intro clients f w hw
    by_cases hmem : f.id ∈ clients
    · simp [processFrame, roomClient, hmem] at hw
      exact ⟨hmem, by rw [hw]⟩
    · simp [processFrame, roomClient, hmem] at hw

/-- C7, witness: a frame from session 3 is dropped when the room only
holds sessions 1 and 2. -/
theorem C7_witness : processFrame [1, 2] ⟨3, "grid()"⟩ = [] :=
  C7_disconnected_client_safety.1 [1, 2] ⟨3, "grid()"⟩ (by decide)

theorem not_hasMark_head (p s : String) (c : Char)
    (hp : p.data.head? = some c) (hs : ¬ (s.data.head? = some c)) : ¬ hasMark p s := by
  intro hpre
  rcases hd : p.data with _ | ⟨x, xs⟩
  · rw [hd] at hp
    cases hp
  · rw [hasMark, hd] at hpre
    rw [hd] at hp
    injection hp with hx
    subst hx
    exact (not_prefix_of_head _ xs s.data hs) hpre

/-- C6: on every payload, a parse failure is reported behind the
`Parser: ` marker and never the `Caller: ` marker, a dispatch failure
behind the `Caller: ` marker and never the `Parser: ` marker, and a
successful command's result starts with neither marker. -/
theorem C6_error_marks (s : String) :
    (¬ (s = "help") → ¬ ((parse s.data).2.2 = none) →
        hasMark parserMark (callParse s).1 ∧ ¬ hasMark callerMark (callParse s).1
          ∧ (callParse s).2 = false)
    ∧ (¬ (s = "help") → (parse s.data).2.2 = none →
        ∀ e, dispatch (String.mk (parse s.data).1) ((parse s.data).2.1.map String.mk)
          = .error e →
        hasMark callerMark (callParse s).1 ∧ ¬ hasMark parserMark (callParse s).1
          ∧ (callParse s).2 = false)
    ∧ ((callParse s).2 = true →
        ¬ hasMark parserMark (callParse s).1 ∧ ¬ hasMark callerMark (callParse s).1) := by
  have hheadP : ∀ x : String, ("Parser: " ++ x).data.head? = some 'P' := fun x => by
    rw [String.data_append]
    rfl
  have hheadC : ∀ x : String, ("Caller: " ++ x).data.head? = some 'C' := fun x => by
    rw [String.data_append]
    rfl
  have hmarkP : ∀ x : String, hasMark parserMark ("Parser: " ++ x) :=
    fun x => ⟨x.data, (String.data_append _ _).symm⟩
  have hmarkC : ∀ x : String, hasMark callerMark ("Caller: " ++ x) :=
    fun x => ⟨x.data, (String.data_append _ _).symm⟩
  have hPnotC : ∀ x : String, ¬ hasMark callerMark ("Parser: " ++ x) := by
    intro x
    refine not_hasMark_head _ _ 'C' rfl (fun h => ?_)
    rw [hheadP x] at h
    exact absurd (Option.some.inj h) (by decide)
  have hCnotP : ∀ x : String, ¬ hasMark parserMark ("Caller: " ++ x) := by
    intro x
    refine not_hasMark_head _ _ 'P' rfl (fun h => ?_)
    rw [hheadC x] at h
    exact absurd (Option.some.inj h) (by decide)
  by_cases hs : s = "help"
  · subst hs
    refine ⟨fun hne => absurd rfl hne, fun hne => absurd rfl hne, fun _ => ⟨?_, ?_⟩⟩
    · exact not_hasMark_head _ _ 'P' rfl (by decide)
    · exact not_hasMark_head _ _ 'C' rfl (by decide)
  · have hcp : callParse s = parseThenDispatch s := by
      unfold callParse
      rw [if_neg hs]
    cases hE : (parse s.data).2.2 with
    | some e =>
      have hres : parseThenDispatch s = ("Parser: " ++ parseErrText e, false) := by
        unfold parseThenDispatch
        rw [hE]
      refine ⟨fun _ _ => ?_, fun _ hnone => absurd hnone (by simp), fun htrue => ?_⟩
      · rw [hcp, hres]
        exact ⟨hmarkP _, hPnotC _, rfl⟩
      · rw [hcp, hres] at htrue
        cases htrue
    | none =>
      cases hd : dispatch (String.mk (parse s.data).1) ((parse s.data).2.1.map String.mk) with
      | error e =>
        have hres : parseThenDispatch s = ("Caller: " ++ dispatchErrText e, false) := by
          unfold parseThenDispatch
          rw [hE, hd]
        refine ⟨fun _ hnn => absurd rfl hnn, fun _ _ e' he' => ?_, fun htrue => ?_⟩
        · rw [hcp, hres]
          exact ⟨hmarkC _, hCnotP _, rfl⟩
        · rw [hcp, hres] at htrue
          cases htrue
      | ok r =>
        have hres : parseThenDispatch s = (r, true) := by
          unfold parseThenDispatch
          rw [hE, hd]
        obtain ⟨c, hc, hcP, hcC⟩ := dispatch_ok_head _ _ _ hd
        refine ⟨fun _ hnn => absurd rfl hnn, fun _ _ e' he' => Except.noConfusion he', fun _ => ?_⟩
        · rw [hcp, hres]
          constructor
          · refine not_hasMark_head _ _ 'P' rfl (fun h => ?_)
            rw [hc] at h
            exact hcP (Option.some.inj h)
          · refine not_hasMark_head _ _ 'C' rfl (fun h => ?_)
            rw [hc] at h
            exact hcC (Option.some.inj h)

/-- C6, witness: on the payload `zzz` the parser fails and the result
carries the parse marker and not the dispatch marker; on `nope()` the
parser succeeds, the dispatcher rejects the unknown operation and the
result carries the dispatch marker and not the parse marker. -/
theorem C6_witness :
    (hasMark parserMark (callParse "zzz").1 ∧ ¬ hasMark callerMark (callParse "zzz").1
      ∧ (callParse "zzz").2 = false)
    ∧ (hasMark callerMark (callParse "nope()").1
      ∧ ¬ hasMark parserMark (callParse "nope()").1
      ∧ (callParse "nope()").2 = false) := by
  constructor
  · exact (C6_error_marks "zzz").1 (by decide) (by decide)
  · exact (C6_error_marks "nope()").2.1 (by decide) (by decide)
      (DispatchError.unknownOperation "nope") (by decide)

end Gamez
